import Mathlib

/-!
Verification of the omiGlass firmware control plane
(src/omiGlass/firmware/src/app.cpp, opus_encoder.cpp, mic.cpp).

The definitions below are a shallow embedding of the firmware code.
Machine integers are modelled as Nat (or Int where the source uses signed
types), with explicit wrap (mod) exactly where the C code can overflow.
Numeric constants that live in config.h (which is not part of the sources,
only comments describe them) are either kept as parameters (buffer sizes,
maximum packet size, gain) or, when a claim names the value, introduced as
a constant documented as modelled from the spec.
-/

/-- Suffix of a list: its last n elements (all of it when it is shorter). -/
def lastN (n : Nat) (l : List α) : List α := l.drop (l.length - n)

/-! ## PCM sample ring buffer (opus_encoder.cpp)

The ring is an array of AUDIO_RING_BUFFER_SAMPLES int16 samples with a
write and a read index.  The array size is a config.h constant, kept here
as the parameter N.  One slot is always left empty so that write == read
means empty; the observable capacity of the buffer is therefore N - 1. -/

structure PcmRing where
  buf : Nat → Int
  w : Nat
  r : Nat

/-- One iteration of the sample-copy loop in opus_receive_pcm
(opus_encoder.cpp lines 145-153): if advancing the write index would land
on the read index the buffer is full and the oldest unread sample is
dropped by advancing the read index; then the sample is stored and the
write index advances. -/
def pcmPush1 (N : Nat) (s : PcmRing) (x : Int) : PcmRing :=
  { buf := Function.update s.buf s.w x,
    w := (s.w + 1) % N,
    r := if (s.w + 1) % N = s.r then (s.r + 1) % N else s.r }

/-- opus_receive_pcm (opus_encoder.cpp lines 140-155): pushes every sample
of the call, returning 0 (the source returns -1 only when the buffer was
never allocated, a case outside this model). -/
def opus_receive_pcm (N : Nat) (s : PcmRing) (data : List Int) : PcmRing × Int :=
  (data.foldl (pcmPush1 N) s, 0)

/-- ring_buffer_available (opus_encoder.cpp lines 162-169). -/
def ring_buffer_available (N : Nat) (s : PcmRing) : Nat :=
  if s.r ≤ s.w then s.w - s.r else N - s.r + s.w

/-- The unread samples, oldest first: the available() samples starting at
the read index, walking the ring. -/
def pcmReadable (N : Nat) (s : PcmRing) : List Int :=
  (List.range (ring_buffer_available N s)).map (fun i => s.buf ((s.r + i) % N))

/-- Observable capacity of the sample ring: the largest value
ring_buffer_available can reach (one array slot stays empty to
distinguish full from empty). -/
def pcmCapacity (N : Nat) : Nat := N - 1

/-- Ring state at boot: indices zero (opus_encoder_init lines 107-108). -/
def pcmInit : PcmRing := { buf := fun _ => 0, w := 0, r := 0 }

/-- A sequence of opus_receive_pcm calls; collects the return codes. -/
def pushCalls (N : Nat) : List (List Int) → PcmRing → PcmRing × List Int
  | [], s => (s, [])
  | ys :: rest, s =>
    let out := opus_receive_pcm N s ys
    let next := pushCalls N rest out.1
    (next.1, out.2 :: next.2)

/-! ## Packet ring buffer and transport (app.cpp)

The byte ring audio_tx_buffer has size
AUDIO_TX_RING_BUFFER_SIZE * (OPUS_OUTPUT_MAX_BYTES + 2), a config.h
value kept as the parameter B; OPUS_OUTPUT_MAX_BYTES is the parameter M. -/

structure PacketRing where
  buf : Nat → Nat
  w : Nat
  r : Nat

/-- Writes a list of bytes into the ring starting at position pos,
wrapping modulo B (the per-byte stores of onOpusEncoded). -/
def writeBytes (B : Nat) (buf : Nat → Nat) (pos : Nat) (bytes : List Nat) : Nat → Nat :=
  match bytes with
  | [] => buf
  | b :: rest => writeBytes B (Function.update buf (pos % B) b) (pos + 1) rest

/-- onOpusEncoded (app.cpp lines 471-501): drop oversize payloads, run the
overflow admission test on the would-be next write position, and otherwise
store the little-endian length prefix followed by the payload. -/
def onOpusEncoded (B M : Nat) (g : PacketRing) (data : List Nat) : PacketRing :=
  if M < data.length then g
  else
    let packetSize := data.length + 2
    let nextWrite := (g.w + packetSize) % B
    if (g.w < g.r ∧ g.r ≤ nextWrite) ∨ (g.r ≤ g.w ∧ nextWrite < g.w ∧ g.r ≤ nextWrite) then g
    else
      { buf := writeBytes B g.buf g.w ([data.length % 256, data.length / 256 % 256] ++ data),
        w := nextWrite, r := g.r }

/-- One iteration of the processAudioTx while-loop (app.cpp lines 559-585),
restricted to its effect on the ring: decode the little-endian length at
the read index; an invalid length (0 or above M) skips the two length
bytes, a valid one yields the payload and advances past the record. -/
def readRecord (B M : Nat) (g : PacketRing) : PacketRing × Option (List Nat) :=
  if g.r = g.w then (g, none)
  else
    let len := g.buf g.r + 256 * g.buf ((g.r + 1) % B)
    if len = 0 ∨ M < len then ({ g with r := (g.r + 2) % B }, none)
    else
      ({ g with r := (g.r + 2 + len) % B },
       some ((List.range len).map (fun i => g.buf ((g.r + 2 + i) % B))))

/-- The spec-side admission predicate: a framed record of len payload
bytes fits without the write position passing the read position exactly
when the occupied bytes plus the record still leave the one empty
separator slot. -/
def recordFits (B : Nat) (g : PacketRing) (len : Nat) : Prop :=
  (g.w + B - g.r) % B + (len + 2) < B

/-- Events emitted on the wireless link during a scheduler iteration. -/
inductive Ev where
  | audioPkt (bytes : List Nat)
  | photoNotify (bytes : List Nat)
deriving DecidableEq

/-- Whether an event is an audio packet notification. -/
def Ev.isAudio : Ev → Bool
  | .audioPkt _ => true
  | .photoNotify _ => false

/-- The global firmware state touched by the transport arbiter: the packet
ring, the BLE flags, the audio packet sequence number (uint16), and the
photo transfer session fields of app.cpp.  audioCharPresent models the
audioDataCharacteristic pointer being non-null. -/
structure ArbSt where
  ring : PacketRing
  connected : Bool
  audioSubscribed : Bool
  audioCharPresent : Bool
  seq : Nat
  uploading : Bool
  fb : Option (List Nat)
  orientation : Nat
  sent : Nat
  frames : Nat
  counter : Nat
  lastActivity : Nat

/-- broadcastAudioPacket (app.cpp lines 512-533): skip when disconnected,
unsubscribed or the characteristic is absent; otherwise notify the
3-byte-header packet [seq_lo][seq_hi][0] ++ payload and increment the
uint16 sequence number (wrapping at 65536). -/
def broadcastAudioPacket (s : ArbSt) (data : List Nat) : ArbSt × Option (List Nat) :=
  if ¬s.connected ∨ ¬s.audioSubscribed ∨ ¬s.audioCharPresent then (s, none)
  else
    ({ s with seq := (s.seq + 1) % 65536 },
     some ([s.seq % 256, s.seq / 256 % 256, 0] ++ data))

/-- The drain loop of processAudioTx (app.cpp lines 559-585), with a fuel
bound standing for the number of loop iterations actually executed. -/
def drainGo (B M : Nat) : Nat → ArbSt → ArbSt × List Ev
  | 0, s => (s, [])
  | fuel + 1, s =>
    if s.ring.r = s.ring.w then (s, [])
    else
      let rr := readRecord B M s.ring
      match rr.2 with
      | none => drainGo B M fuel { s with ring := rr.1 }
      | some payload =>
        let b := broadcastAudioPacket { s with ring := rr.1 } payload
        let rest := drainGo B M fuel b.1
        (rest.1, (match b.2 with | some p => [Ev.audioPkt p] | none => []) ++ rest.2)

/-- processAudioTx (app.cpp lines 547-586): early return when
disconnected, unsubscribed or the characteristic is absent, otherwise the
drain loop. -/
def processAudioTx (B M fuel : Nat) (s : ArbSt) : ArbSt × List Ev :=
  if ¬s.connected ∨ ¬s.audioSubscribed ∨ ¬s.audioCharPresent then (s, []) else drainGo B M fuel s

/-- A well-formed region of the packet ring: starting at the first index,
n length-framed records (each with a valid length prefix decoding to a
payload length between 1 and M) chain up to the second index. -/
inductive RingChain (B M : Nat) (buf : Nat → Nat) : Nat → Nat → Nat → Prop where
  | nil (p : Nat) : RingChain B M buf p p 0
  | cons (r w n len : Nat) :
      1 ≤ len → len ≤ M →
      buf r + 256 * buf ((r + 1) % B) = len →
      RingChain B M buf ((r + 2 + len) % B) w n →
      RingChain B M buf r w (n + 1)

/-- Section 9 of loop_app (app.cpp lines 1389-1449), one iteration of the
photo chunk arbiter: when a session is active, a frame buffer is owned and
the static per-loop counter is below 2, the counter is reset if pending
audio is detected (else incremented) and then one chunk is emitted - the
first chunk with a 3-byte header [0][0][orientation] and at most 199
payload bytes, later chunks with a 2-byte frame-index header and at most
200 payload bytes, or the 2-byte terminator 0xFF 0xFF when all bytes are
sent, which ends the session and releases the frame buffer. -/
def photoSection (now : Nat) (s : ArbSt) : ArbSt × List Ev :=
  if s.uploading ∧ s.fb.isSome ∧ s.counter < 2 then
    let s0 := if s.audioSubscribed ∧ s.ring.r ≠ s.ring.w
      then { s with counter := 0 }
      else { s with counter := s.counter + 1 }
    let img := s0.fb.getD []
    let remaining := img.length - s0.sent
    if 0 < remaining then
      if s0.frames = 0 then
        let bytesToCopy := if 199 < remaining then 199 else remaining
        ({ s0 with sent := s0.sent + bytesToCopy, frames := s0.frames + 1, lastActivity := now },
         [Ev.photoNotify ([0, 0, s0.orientation] ++ (img.drop s0.sent).take bytesToCopy)])
      else
        let bytesToCopy := if 200 < remaining then 200 else remaining
        ({ s0 with sent := s0.sent + bytesToCopy, frames := s0.frames + 1, lastActivity := now },
         [Ev.photoNotify ([s0.frames % 256, s0.frames / 256 % 256] ++ (img.drop s0.sent).take bytesToCopy)])
    else
      ({ s0 with uploading := false, fb := none, counter := 0 }, [Ev.photoNotify [255, 255]])
  else
    ({ s with counter := 0 }, [])

/-- The audio-then-photo slice of one loop_app iteration: section 5
(audio transmission, gated on connected and subscribed, app.cpp lines
1330-1332) followed by section 9 (photo chunking).  The sections in
between (power there, battery, capture start) do not touch the packet ring,
and the capture check of section 8 is a no-op while photoDataUploading
is true. -/
def loopAudioPhoto (B M fuel now : Nat) (s : ArbSt) : ArbSt × List Ev :=
  let a := if s.connected ∧ s.audioSubscribed then processAudioTx B M fuel s else (s, [])
  let p := photoSection now a.1
  (p.1, a.2 ++ p.2)

/-- Iterated photo-section invocations across successive loop iterations
(one per scheduler pass), collecting every notification emitted. -/
def runPhoto : Nat → Nat → ArbSt → ArbSt × List Ev
  | 0, _, s => (s, [])
  | fuel + 1, now, s =>
    let step := photoSection now s
    let rest := runPhoto fuel now step.1
    (rest.1, step.2 ++ rest.2)

/-- BLE link events, as seen by the callbacks of app.cpp: ServerHandler
onConnect and onDisconnect (lines 605-627) and the audio CCCD write
(lines 643-656).  Modelled from the spec for the transport collaborator:
a CCCD write (subscribe) can only be delivered over an open connection. -/
inductive BleEv where
  | connect
  | disconnect
  | subscribe (enable : Bool)

/-- Transition of the (connected, audioSubscribed) flag pair under a link
event: connecting and disconnecting both clear the subscription; a
subscription write takes effect only while connected. -/
def bleStep : Bool × Bool → BleEv → Bool × Bool
  | _, .connect => (true, false)
  | _, .disconnect => (false, false)
  | (c, s), .subscribe b => (c, if c then b else s)

/-! ### Spec-side description of the photo chunk stream (for claim C4)

These definitions follow the words of the spec (sections 3, 4.3 and 6):
first chunk [0][0][orientation] plus at most 199 bytes, subsequent chunks
[index_lo][index_hi] plus at most 200 bytes, then the terminator
[0xFF][0xFF]. -/

/-- Chunks after the first: 2-byte frame-index header plus up to 200
payload bytes, then the terminator once nothing remains. -/
def specChunksAux (frame : Nat) (rest : List Nat) : List (List Nat) :=
  if h : rest = [] then [[255, 255]]
  else ([frame % 256, frame / 256 % 256] ++ rest.take 200) :: specChunksAux (frame + 1) (rest.drop 200)
termination_by rest.length
decreasing_by
  simp only [List.length_drop]
  have : rest.length ≠ 0 := fun hn => h (List.eq_nil_of_length_eq_zero hn)
  omega

/-- The full chunk stream for an image: first chunk with the 3-byte
header [0][0][orientation] and at most 199 payload bytes, then the rest. -/
def specPhotoChunks (img : List Nat) (orient : Nat) : List (List Nat) :=
  ([0, 0, orient] ++ img.take 199) :: specChunksAux 1 (img.drop 199)

/-- Payload sizes of a chunk list: the first chunk carries a 3-byte
header, every later data chunk a 2-byte header. -/
def payloadSizes (chunks : List (List Nat)) : List Nat :=
  match chunks with
  | [] => []
  | first :: rest => (first.length - 3) :: rest.map (fun c => c.length - 2)

/-- Payload sizes of the data chunks after the first, for a remainder of
n bytes: full 200-byte chunks then the leftover. -/
def tailSizes (n : Nat) : List Nat :=
  List.replicate (n / 200) 200 ++ (if n % 200 = 0 then [] else [n % 200])

/-- The payload sizes the spec predicts for an image of length L:
min L 199 for the first chunk, then 200-byte chunks and the leftover. -/
def chunkSizes (L : Nat) : List Nat := min L 199 :: tailSizes (L - 199)

/-! ## Light sleep (app.cpp enableLightSleep, lines 367-401) -/

/-- The state read and written by enableLightSleep. -/
structure SleepSt where
  lightSleepEnabled : Bool
  connected : Bool
  photoDataUploading : Bool
  lastActivity : Nat
  isCapturingPhotos : Bool
  captureInterval : Nat
  lastCaptureTime : Nat

/-- Milliseconds until the next scheduled photo capture (app.cpp lines
381-389): zero unless interval capturing is active and the interval has
not yet elapsed. -/
def photoHeadroom (now : Nat) (s : SleepSt) : Nat :=
  if s.isCapturingPhotos ∧ 0 < s.captureInterval ∧ now - s.lastCaptureTime < s.captureInterval then
    s.captureInterval - (now - s.lastCaptureTime)
  else 0

/-- enableLightSleep (app.cpp lines 367-401).  Returns the new state and
the sleep duration in ms, if a sleep was performed; wake is the millis()
value observed on waking, written into lastActivity. -/
def enableLightSleep (now wake : Nat) (s : SleepSt) : SleepSt × Option Nat :=
  if ¬s.lightSleepEnabled ∨ ¬s.connected ∨ s.photoDataUploading then (s, none)
  else if now - s.lastActivity < 5000 then (s, none)
  else if 10000 < photoHeadroom now s then
    let sleepTime := photoHeadroom now s - 5000
    let sleepTime2 := if 15000 < sleepTime then 15000 else sleepTime
    ({ s with lastActivity := wake }, some sleepTime2)
  else (s, none)

/-! ## Power save mode and the button state machine (app.cpp) -/

/-- CPU power state: the powerSaveMode flag and the configured CPU clock
in MHz (NORMAL_CPU_FREQ_MHZ = 80, MIN_CPU_FREQ_MHZ = 40 per the config
comments). -/
structure PowerSt where
  powerSaveMode : Bool
  cpuMhz : Nat

/-- enterPowerSave (app.cpp lines 333-339). -/
def enterPowerSave (p : PowerSt) : PowerSt :=
  if ¬p.powerSaveMode then { powerSaveMode := true, cpuMhz := 40 } else p

/-- exitPowerSave (app.cpp lines 347-353). -/
def exitPowerSave (p : PowerSt) : PowerSt :=
  if p.powerSaveMode then { powerSaveMode := false, cpuMhz := 80 } else p

/-- State for the power-mode check of loop_app section 6. -/
structure PmSt where
  power : PowerSt
  lastActivity : Nat

/-- loop_app section 6 (app.cpp lines 1337-1346): enter power save when
disconnected, not uploading and idle beyond the threshold
(IDLE_THRESHOLD_MS, a config constant kept as the parameter thresh);
when connected or uploading, exit power save and refresh activity. -/
def powerModeCheck (thresh now : Nat) (connected uploading : Bool) (s : PmSt) : PmSt :=
  if ¬connected ∧ ¬uploading ∧ thresh < now - s.lastActivity then
    { s with power := enterPowerSave s.power }
  else if connected ∨ uploading then
    { s with power := if s.power.powerSaveMode then exitPowerSave s.power else s.power,
             lastActivity := now }
  else s

/-- LED modes of app.cpp (led_status_t). -/
inductive LedMode where
  | bootSequence
  | normalOperation
  | powerOffSequence
deriving DecidableEq

/-- The state read and written by handleButton: the function statics
(lastDebounceTime, buttonDown, longPressTriggered), the globals
buttonPressTime and lastActivity, the LED mode and the power state. -/
structure BtnSt where
  lastDebounceTime : Nat
  buttonDown : Bool
  longPressTriggered : Bool
  buttonPressTime : Nat
  lastActivity : Nat
  power : PowerSt
  ledMode : LedMode

/-- handleButton (app.cpp lines 271-321): debounced press edge, long-press
detection at 2000 ms which starts the LED shutdown sequence, and debounced
release edge which counts as a short press (activity refresh plus
power-save exit) only when the long press did not fire. rawPressed is the
inverted reading of the active-low button pin. -/
def handleButton (now : Nat) (rawPressed : Bool) (s : BtnSt) : BtnSt :=
  if rawPressed ∧ ¬s.buttonDown then
    if now - s.lastDebounceTime < 50 then s
    else { s with buttonPressTime := now, buttonDown := true,
                  longPressTriggered := false, lastDebounceTime := now }
  else if rawPressed ∧ s.buttonDown ∧ ¬s.longPressTriggered then
    if 2000 ≤ now - s.buttonPressTime then
      { s with longPressTriggered := true, ledMode := LedMode.powerOffSequence }
    else s
  else if ¬rawPressed ∧ s.buttonDown then
    if now - s.lastDebounceTime < 50 then s
    else
      let s1 := { s with buttonDown := false, lastDebounceTime := now }
      let s2 :=
        if ¬s.longPressTriggered ∧ 50 ≤ now - s.buttonPressTime then
          { s1 with lastActivity := now,
                    power := if s1.power.powerSaveMode then exitPowerSave s1.power else s1.power }
        else s1
      { s2 with longPressTriggered := false }
  else s

/-! ## Photo control commands (app.cpp handlePhotoControl, lines 1077-1103) -/

/-- The photo capture scheduling state. -/
structure PhotoCtl where
  isCapturingPhotos : Bool
  captureInterval : Nat
  lastCaptureTime : Nat
deriving DecidableEq

/-- Modelled from the spec: PHOTO_CAPTURE_INTERVAL_MS is a config.h
constant; the spec and the source comments (app.cpp lines 1095-1098) fix
it at 30 seconds. -/
def PHOTO_CAPTURE_INTERVAL_MS : Nat := 30000

/-- Reinterpretation of a received byte as the int8_t controlValue
(PhotoControlCallback reads the characteristic byte into an int8_t,
app.cpp line 708). -/
def toInt8 (b : Nat) : Int :=
  if b % 256 < 128 then ((b % 256 : Nat) : Int) else ((b % 256 : Nat) : Int) - 256

/-- handlePhotoControl (app.cpp lines 1077-1103): -1 arms a single
capture, 0 stops capturing, and a value in the 5..300 branch arms
interval capture with the fixed configured interval and a lastCaptureTime
set so the first capture is immediately due; any other value is ignored. -/
def handlePhotoControl (now : Nat) (v : Int) (s : PhotoCtl) : PhotoCtl :=
  if v = -1 then { s with isCapturingPhotos := true, captureInterval := 0 }
  else if v = 0 then { s with isCapturingPhotos := false, captureInterval := 0 }
  else if 5 ≤ v ∧ v ≤ 300 then
    { isCapturingPhotos := true, captureInterval := PHOTO_CAPTURE_INTERVAL_MS,
      lastCaptureTime := now - PHOTO_CAPTURE_INTERVAL_MS }
  else s

/-- The capture-due test of loop_app section 8 (app.cpp line 1370). -/
def captureDue (now : Nat) (s : PhotoCtl) : Prop :=
  s.captureInterval = 0 ∨ s.captureInterval ≤ now - s.lastCaptureTime

/-! ## Microphone gain path (mic.cpp mic_process, lines 163-195) -/

/-- Two's-complement wrap of an integer into the int32 range, the type in
which the source computes sample * MIC_GAIN. -/
def wrap32 (v : Int) : Int := (v + 2 ^ 31) % 2 ^ 32 - 2 ^ 31

/-- The per-sample gain computation of mic_process (lines 180-186):
multiply in 32-bit arithmetic, then clamp to the int16 range. -/
def micScale (g x : Int) : Int :=
  let v := wrap32 (x * g)
  if 32767 < v then 32767 else if v < -32768 then -32768 else v

/-- The gain stage of mic_process applied to a batch of read samples
(MIC_GAIN, a config constant, is the parameter g): the loop runs only
when the gain is not 1. -/
def mic_process (g : Int) (xs : List Int) : List Int :=
  if g ≠ 1 then xs.map (micScale g) else xs

/-! ## Concrete states used by the claim witnesses -/

/-- Packet ring after publishing a 6-byte and then a 5-byte record into
an empty 16-byte ring (with M = 6). -/
def c2s2 : PacketRing :=
  onOpusEncoded 16 6 (onOpusEncoded 16 6 { buf := fun _ => 0, w := 0, r := 0 } [1, 1, 1, 1, 1, 1]) [2, 2, 2, 2, 2]

/-- The same ring after the drain loop consumed both records. -/
def c2s4 : PacketRing := (readRecord 16 6 (readRecord 16 6 c2s2).1).1

/-- The ring after publishing a further 6-byte record (which wraps past
the end of the array) and a 3-byte record: the write index sits at 12,
the read index at 15, so only 2 payload bytes still fit. -/
def c2s6 : PacketRing := onOpusEncoded 16 6 (onOpusEncoded 16 6 c2s4 [3, 3, 3, 3, 3, 3]) [4, 4, 4]

/-- Publishing a 2-byte record into c2s6: the framed record needs 4 bytes
but only 3 remain before the read index. -/
def c2bad : PacketRing := onOpusEncoded 16 6 c2s6 [7, 7]

/-- Arbiter state for the C1 witness: connected, subscribed, one pending
3-byte record in a 16-byte ring, and an active one-byte photo upload. -/
def c1State : ArbSt :=
  { ring := onOpusEncoded 16 6 { buf := fun _ => 0, w := 0, r := 0 } [9, 9, 9],
    connected := true, audioSubscribed := true, audioCharPresent := true,
    seq := 0, uploading := true, fb := some [1], orientation := 2,
    sent := 0, frames := 0, counter := 0, lastActivity := 0 }

/-- Arbiter state for the C4 witness: a fresh 3-byte upload, idle ring. -/
def c4State : ArbSt :=
  { ring := { buf := fun _ => 0, w := 0, r := 0 },
    connected := true, audioSubscribed := true, audioCharPresent := true,
    seq := 0, uploading := true, fb := some [1, 2, 3], orientation := 5,
    sent := 0, frames := 0, counter := 0, lastActivity := 0 }

/-- Arbiter state for the C5 witness: about to wrap the sequence number. -/
def c5State : ArbSt :=
  { ring := { buf := fun _ => 0, w := 0, r := 0 },
    connected := true, audioSubscribed := true, audioCharPresent := true,
    seq := 65535, uploading := false, fb := none, orientation := 0,
    sent := 0, frames := 0, counter := 0, lastActivity := 0 }

/-- Sleep state for the C6 witness: eligible for a light sleep with a
15-second headroom to the next capture. -/
def c6State : SleepSt :=
  { lightSleepEnabled := true, connected := true, photoDataUploading := false,
    lastActivity := 1000, isCapturingPhotos := true, captureInterval := 30000,
    lastCaptureTime := 0 }

/-- Button state for the C7 witness: held down with the long press fired. -/
def c7State : BtnSt :=
  { lastDebounceTime := 1000, buttonDown := true, longPressTriggered := true,
    buttonPressTime := 1000, lastActivity := 900,
    power := { powerSaveMode := true, cpuMhz := 40 }, ledMode := LedMode.powerOffSequence }

/-! ## Theorems -/

theorem lastN_of_le {l : List α} {n : Nat} (h : l.length ≤ n) : lastN n l = l := by
  simp [lastN, Nat.sub_eq_zero_of_le h]

theorem lastN_append_right {l₁ l₂ : List α} {n : Nat} (h : n ≤ l₂.length) :
    lastN n (l₁ ++ l₂) = lastN n l₂ := by
  simp only [lastN, List.length_append]
  have he : l₁.length + l₂.length - n = l₁.length + (l₂.length - n) := by omega
  rw [he, List.drop_append]

theorem lastN_absorb (n : Nat) (l m : List α) :
    lastN n (lastN n l ++ m) = lastN n (l ++ m) := by
  rcases le_or_lt l.length n with h | h
  · rw [lastN_of_le h]
  · have hlen : n ≤ (l.drop (l.length - n) ++ m).length := by
      simp only [List.length_append, List.length_drop]
      omega
    conv_rhs => rw [← List.take_append_drop (l.length - n) l, List.append_assoc,
                    lastN_append_right hlen]
    rfl

theorem ring_buffer_available_le (N : Nat) (s : PcmRing) (hw : s.w < N) (hr : s.r < N) :
    ring_buffer_available N s ≤ N - 1 := by
  unfold ring_buffer_available
  split_ifs <;> omega

theorem pcmReadable_length (N : Nat) (s : PcmRing) :
    (pcmReadable N s).length = ring_buffer_available N s := by
  simp [pcmReadable]

theorem readable_last_index (N : Nat) (s : PcmRing) (hw : s.w < N) (hr : s.r < N) :
    (s.r + ring_buffer_available N s) % N = s.w := by
  unfold ring_buffer_available
  rcases le_or_lt s.r s.w with h | h
  · rw [if_pos h]
    have he : s.r + (s.w - s.r) = s.w := by omega
    rw [he, Nat.mod_eq_of_lt hw]
  · rw [if_neg (by omega)]
    have he : s.r + (N - s.r + s.w) = N + s.w := by omega
    rw [he, Nat.add_mod_left, Nat.mod_eq_of_lt hw]

theorem mod_add_inj (N r i a : Nat) (hi : i < N) (ha : a < N)
    (h : (r + i) % N = (r + a) % N) : i = a := by
  have h2 : i % N = a % N := Nat.ModEq.add_left_cancel' r h
  rwa [Nat.mod_eq_of_lt hi, Nat.mod_eq_of_lt ha] at h2

theorem pcm_notfull_avail_lt (N : Nat) (s : PcmRing) (hw : s.w < N) (hr : s.r < N)
    (h : (s.w + 1) % N ≠ s.r) : ring_buffer_available N s < N - 1 := by
  unfold ring_buffer_available
  rcases le_or_lt s.r s.w with hle | hlt
  · rw [if_pos hle]
    by_contra hc
    have hw' : s.w = N - 1 := by omega
    have hr' : s.r = 0 := by omega
    apply h
    rw [hw', hr']
    have he : N - 1 + 1 = N := by omega
    rw [he, Nat.mod_self]
  · rw [if_neg (by omega)]
    by_contra hc
    have he : s.r = s.w + 1 := by omega
    apply h
    rw [he, Nat.mod_eq_of_lt (by omega)]

theorem pcm_full_avail (N : Nat) (s : PcmRing) (hN : 2 ≤ N) (hw : s.w < N) (hr : s.r < N)
    (h : (s.w + 1) % N = s.r) : ring_buffer_available N s = N - 1 := by
  unfold ring_buffer_available
  rcases Nat.lt_or_ge (s.w + 1) N with h1 | h1
  · rw [Nat.mod_eq_of_lt h1] at h
    rw [if_neg (by omega)]
    omega
  · have hwN : s.w + 1 = N := by omega
    rw [hwN, Nat.mod_self] at h
    rw [if_pos (by omega)]
    omega

theorem pcmPush1_avail_notfull (N : Nat) (s : PcmRing) (x : Int)
    (hw : s.w < N) (hr : s.r < N) (h : (s.w + 1) % N ≠ s.r) :
    ring_buffer_available N (pcmPush1 N s x) = ring_buffer_available N s + 1 := by
  simp only [pcmPush1, ring_buffer_available, if_neg h]
  rcases Nat.lt_or_ge (s.w + 1) N with h1 | h1
  · rw [Nat.mod_eq_of_lt h1] at h ⊢
    split_ifs <;> omega
  · have hwN : s.w + 1 = N := by omega
    rw [hwN, Nat.mod_self] at h ⊢
    split_ifs <;> omega

theorem pcmPush1_avail_full (N : Nat) (s : PcmRing) (x : Int) (hN : 2 ≤ N)
    (hw : s.w < N) (hr : s.r < N) (h : (s.w + 1) % N = s.r) :
    ring_buffer_available N (pcmPush1 N s x) = N - 1 := by
  simp only [pcmPush1, ring_buffer_available, if_pos h]
  rw [h]
  rcases Nat.lt_or_ge (s.r + 1) N with h1 | h1
  · rw [Nat.mod_eq_of_lt h1]
    rw [if_neg (by omega)]
    omega
  · have hrN : s.r + 1 = N := by omega
    rw [hrN, Nat.mod_self]
    rw [if_pos (by omega)]
    omega

theorem pcmPush1_readable (N : Nat) (hN : 2 ≤ N) (s : PcmRing) (hw : s.w < N) (hr : s.r < N)
    (x : Int) :
    pcmReadable N (pcmPush1 N s x) = lastN (N - 1) (pcmReadable N s ++ [x]) := by
  have hkey := readable_last_index N s hw hr
  have havail_le := ring_buffer_available_le N s hw hr
  have hbuf : (pcmPush1 N s x).buf = Function.update s.buf s.w x := rfl
  have hr' : (pcmPush1 N s x).r =
      (if (s.w + 1) % N = s.r then (s.r + 1) % N else s.r) := rfl
  by_cases hfull : (s.w + 1) % N = s.r
  · -- buffer full: the oldest sample is dropped
    have havail := pcmPush1_avail_full N s x hN hw hr hfull
    have ha : ring_buffer_available N s = N - 1 := pcm_full_avail N s hN hw hr hfull
    rw [ha] at hkey
    have hlenr : (pcmReadable N s).length = N - 1 := by rw [pcmReadable_length, ha]
    have hRHS : lastN (N - 1) (pcmReadable N s ++ [x]) = (pcmReadable N s).drop 1 ++ [x] := by
      rw [lastN]
      have h1 : (pcmReadable N s ++ [x]).length - (N - 1) = 1 := by
        rw [List.length_append, hlenr]
        simp only [List.length_cons, List.length_nil]
        omega
      rw [h1, List.drop_append_of_le_length (by omega)]
    rw [hRHS, pcmReadable, havail, hbuf, hr', if_pos hfull]
    have hsplit : N - 1 = (N - 2) + 1 := by omega
    rw [hsplit, List.range_succ, List.map_append, List.map_cons, List.map_nil]
    conv_rhs => rw [pcmReadable, ha, hsplit, List.range_succ_eq_map]
    simp only [List.map_cons, List.drop_succ_cons, List.drop_zero, List.map_map]
    congr 1
    · apply List.map_congr_left
      intro i hi
      have hi' : i < N - 2 := List.mem_range.mp hi
      simp only [Function.comp_apply]
      rw [Nat.mod_add_mod]
      have hne : (s.r + 1 + i) % N ≠ s.w := by
        intro heq
        have h12 : s.r + 1 + i = s.r + (1 + i) := by omega
        rw [h12] at heq
        have := mod_add_inj N s.r (1 + i) (N - 1) (by omega) (by omega) (heq.trans hkey.symm)
        omega
      rw [Function.update_noteq hne]
      have h13 : s.r + 1 + i = s.r + Nat.succ i := by omega
      rw [h13]
    · rw [Nat.mod_add_mod]
      have h2 : s.r + 1 + (N - 2) = s.r + (N - 1) := by omega
      rw [h2, hkey, Function.update_same]
  · -- buffer not full: the sample is appended
    have hlt := pcm_notfull_avail_lt N s hw hr hfull
    have havail := pcmPush1_avail_notfull N s x hw hr hfull
    have hlen : (pcmReadable N s ++ [x]).length ≤ N - 1 := by
      rw [List.length_append, pcmReadable_length]
      simp only [List.length_cons, List.length_nil]
      omega
    rw [lastN_of_le hlen, pcmReadable, havail, hbuf, hr', if_neg hfull,
        List.range_succ, List.map_append, List.map_cons, List.map_nil]
    congr 1
    · rw [pcmReadable]
      apply List.map_congr_left
      intro i hi
      have hi' : i < ring_buffer_available N s := List.mem_range.mp hi
      have hne : (s.r + i) % N ≠ s.w := by
        intro heq
        have := mod_add_inj N s.r i (ring_buffer_available N s) (by omega) (by omega)
          (heq.trans hkey.symm)
        omega
      rw [Function.update_noteq hne]
    · rw [hkey, Function.update_same]

theorem pcmPush1_w_lt (N : Nat) (hN : 0 < N) (s : PcmRing) (x : Int) :
    (pcmPush1 N s x).w < N := Nat.mod_lt _ hN

theorem pcmPush1_r_lt (N : Nat) (hN : 0 < N) (s : PcmRing) (hr : s.r < N) (x : Int) :
    (pcmPush1 N s x).r < N := by
  show (if (s.w + 1) % N = s.r then (s.r + 1) % N else s.r) < N
  split_ifs
  · exact Nat.mod_lt _ hN
  · exact hr

theorem pcmFold_readable (N : Nat) (hN : 2 ≤ N) :
    ∀ (xs : List Int) (s : PcmRing), s.w < N → s.r < N →
      pcmReadable N (xs.foldl (pcmPush1 N) s) = lastN (N - 1) (pcmReadable N s ++ xs) := by
  intro xs
  induction xs with
  | nil =>
    intro s hw hr
    rw [List.foldl_nil, List.append_nil, lastN_of_le]
    rw [pcmReadable_length]
    exact ring_buffer_available_le N s hw hr
  | cons x xs ih =>
    intro s hw hr
    rw [List.foldl_cons,
        ih (pcmPush1 N s x) (pcmPush1_w_lt N (by omega) s x) (pcmPush1_r_lt N (by omega) s hr x),
        pcmPush1_readable N hN s hw hr x, lastN_absorb, List.append_assoc, List.singleton_append]

theorem pushCalls_fst (N : Nat) :
    ∀ (calls : List (List Int)) (s : PcmRing),
      (pushCalls N calls s).1 = calls.flatten.foldl (pcmPush1 N) s := by
  intro calls
  induction calls with
  | nil => intro s; rfl
  | cons ys rest ih =>
    intro s
    rw [List.flatten_cons, List.foldl_append]
    exact ih _

theorem pushCalls_snd (N : Nat) :
    ∀ (calls : List (List Int)) (s : PcmRing),
      (pushCalls N calls s).2 = List.replicate calls.length 0 := by
  intro calls
  induction calls with
  | nil => intro s; rfl
  | cons ys rest ih =>
    intro s
    rw [List.length_cons, List.replicate_succ]
    show 0 :: (pushCalls N rest _).2 = _
    rw [ih]

/-- C3: pushing any sequence of sample batches whose total count exceeds
the sample ring capacity never fails (every opus_receive_pcm call returns
0) and leaves exactly capacity-many samples readable, namely the most
recent ones in oldest-first order - so on each overflow it was the oldest
unread sample that was discarded. -/
theorem c3_sample_overwrite (N : Nat) (calls : List (List Int)) (hN : 2 ≤ N)
    (hlen : pcmCapacity N < (calls.map List.length).sum) :
    pcmReadable N (pushCalls N calls pcmInit).1 = lastN (pcmCapacity N) calls.flatten ∧
    (pcmReadable N (pushCalls N calls pcmInit).1).length = pcmCapacity N ∧
    (pushCalls N calls pcmInit).2 = List.replicate calls.length 0 := by
  have hflat : calls.flatten.length = (calls.map List.length).sum := List.length_flatten calls
  have hmain : pcmReadable N (pushCalls N calls pcmInit).1 = lastN (pcmCapacity N) calls.flatten := by
    rw [pushCalls_fst, pcmFold_readable N hN calls.flatten pcmInit
          (show (0 : Nat) < N by omega) (show (0 : Nat) < N by omega)]
    have hinit : pcmReadable N pcmInit = [] := by
      simp [pcmReadable, ring_buffer_available, pcmInit]
    rw [hinit, List.nil_append, pcmCapacity]
  refine ⟨hmain, ?_, pushCalls_snd N calls pcmInit⟩
  rw [hmain, lastN, List.length_drop, pcmCapacity] at *
  omega

/-- Closed instance of C3: a 3-slot ring (capacity 2) after the call
sequence [5,6] then [7,8] holds exactly [7,8]. -/
theorem c3_sample_overwrite_witness :
    pcmReadable 3 (pushCalls 3 [[5, 6], [7, 8]] pcmInit).1 =
      lastN (pcmCapacity 3) ([[5, 6], [7, 8]] : List (List Int)).flatten ∧
    (pcmReadable 3 (pushCalls 3 [[5, 6], [7, 8]] pcmInit).1).length = pcmCapacity 3 ∧
    (pushCalls 3 [[5, 6], [7, 8]] pcmInit).2 =
      List.replicate ([[5, 6], [7, 8]] : List (List Int)).length 0 :=
  c3_sample_overwrite 3 [[5, 6], [7, 8]] (by decide) (by decide)

/-- C2: the admission test of onOpusEncoded is not the claimed fit test.
In the reachable 16-byte ring state c2s6 (write 12, read 15, so 15 of the
16 bytes hold unread data and only a 2-byte record could still be
admitted) a 2-byte payload needs 4 framed bytes and does not fit without
the write position passing the read position - yet onOpusEncoded admits
it: the write position moves from 12 to 0 and the unread length byte at
position 15 is overwritten, after which the drain loop can no longer
parse the record stored there (readRecord reports an invalid length on a
non-empty ring). -/
theorem c2_packet_admission_bug :
    ¬ recordFits 16 c2s6 2 ∧
    c2bad.w ≠ c2s6.w ∧
    c2bad.buf 15 ≠ c2s6.buf 15 ∧
    c2bad.r ≠ c2bad.w ∧
    (readRecord 16 6 c2bad).2 = none := by
  unfold recordFits
  decide

theorem ringChain_zero (B M : Nat) (buf : Nat → Nat) (r w : Nat)
    (h : RingChain B M buf r w 0) : r = w := by
  cases h
  rfl

theorem ringChain_succ (B M : Nat) (buf : Nat → Nat) (r w n : Nat)
    (h : RingChain B M buf r w (n + 1)) :
    ∃ len, 1 ≤ len ∧ len ≤ M ∧ buf r + 256 * buf ((r + 1) % B) = len ∧
      RingChain B M buf ((r + 2 + len) % B) w n := by
  cases h with
  | cons _ _ _ len h1 h2 h3 h4 => exact ⟨len, h1, h2, h3, h4⟩

theorem readRecord_valid (B M : Nat) (g : PacketRing) (len : Nat)
    (hrw : ¬g.r = g.w) (h1 : 1 ≤ len) (h2 : len ≤ M)
    (h3 : g.buf g.r + 256 * g.buf ((g.r + 1) % B) = len) :
    readRecord B M g = ({ g with r := (g.r + 2 + len) % B },
      some ((List.range len).map (fun i => g.buf ((g.r + 2 + i) % B)))) := by
  simp only [readRecord, if_neg hrw]
  rw [h3, if_neg (by omega)]

theorem broadcast_shape (t : ArbSt) (p : List Nat) :
    ∃ q, (broadcastAudioPacket t p).1 = { t with seq := q } := by
  unfold broadcastAudioPacket
  split_ifs
  · exact ⟨t.seq, rfl⟩
  · exact ⟨(t.seq + 1) % 65536, rfl⟩

theorem matchEv_all (o : Option (List Nat)) :
    ((match o with | some p => [Ev.audioPkt p] | none => ([] : List Ev)).all Ev.isAudio) = true := by
  cases o <;> rfl

theorem drainGo_chain (B M : Nat) :
    ∀ (n fuel : Nat) (s : ArbSt), RingChain B M s.ring.buf s.ring.r s.ring.w n → n ≤ fuel →
    ∃ q evs, drainGo B M fuel s =
        ({ s with ring := { s.ring with r := s.ring.w }, seq := q }, evs) ∧
      evs.all Ev.isAudio = true := by
  intro n
  induction n with
  | zero =>
    intro fuel s hch _
    have hrw : s.ring.r = s.ring.w := ringChain_zero B M _ _ _ hch
    refine ⟨s.seq, [], ?_, rfl⟩
    have hring : { s.ring with r := s.ring.w } = s.ring := by
      cases hring' : s.ring
      rw [hring'] at hrw
      simp at hrw ⊢
      exact hrw.symm
    rw [hring]
    cases fuel with
    | zero => rfl
    | succ fuel => simp [drainGo, hrw]
  | succ n ih =>
    intro fuel s hch hf
    cases fuel with
    | zero => omega
    | succ fuel =>
      by_cases hrw : s.ring.r = s.ring.w
      · refine ⟨s.seq, [], ?_, rfl⟩
        have hring : { s.ring with r := s.ring.w } = s.ring := by
          cases hring' : s.ring
          rw [hring'] at hrw
          simp at hrw ⊢
          exact hrw.symm
        rw [hring]
        simp [drainGo, hrw]
      · obtain ⟨len, h1, h2, h3, h4⟩ := ringChain_succ B M _ _ _ _ hch
        have hread := readRecord_valid B M s.ring len hrw h1 h2 h3
        obtain ⟨q1, hq1⟩ := broadcast_shape
          { s with ring := { s.ring with r := (s.ring.r + 2 + len) % B } }
          ((List.range len).map (fun i => s.ring.buf ((s.ring.r + 2 + i) % B)))
        obtain ⟨q2, evs2, hrec, hall⟩ := ih fuel
          { ring := { buf := s.ring.buf, w := s.ring.w, r := (s.ring.r + 2 + len) % B },
            connected := s.connected, audioSubscribed := s.audioSubscribed,
            audioCharPresent := s.audioCharPresent, seq := q1, uploading := s.uploading,
            fb := s.fb, orientation := s.orientation, sent := s.sent, frames := s.frames,
            counter := s.counter, lastActivity := s.lastActivity }
          h4 (by omega)
        refine ⟨q2,
          (match (broadcastAudioPacket
            { s with ring := { s.ring with r := (s.ring.r + 2 + len) % B } }
            ((List.range len).map (fun i => s.ring.buf ((s.ring.r + 2 + i) % B)))).2 with
           | some p => [Ev.audioPkt p] | none => []) ++ evs2, ?_, ?_⟩
        · simp only [drainGo, if_neg hrw, hread, hq1, hrec]
        · rw [List.all_append, hall, matchEv_all]
          rfl

/-- C1: in a scheduler iteration that starts with a pending packet (the
ring read and write positions differ over well-formed records), an audio
subscription and an active photo upload session, the iteration trace is
the audio-drain events followed by the photo-section events; when the
photo section runs, the packet ring has already been fully drained
(read position equals write position), only audio packets were emitted
up to that point, the per-iteration photo-chunk counter is still 0, and
the photo session is still active. -/
theorem c1_audio_priority (B M fuel now n : Nat) (s : ArbSt)
    (hconn : s.connected = true) (hsub : s.audioSubscribed = true)
    (hchar : s.audioCharPresent = true) (hup : s.uploading = true)
    (hfb : s.fb.isSome = true) (hcnt : s.counter = 0)
    (hpend : s.ring.r ≠ s.ring.w)
    (hchain : RingChain B M s.ring.buf s.ring.r s.ring.w n) (hfuel : n ≤ fuel) :
    (processAudioTx B M fuel s).1.ring.r = (processAudioTx B M fuel s).1.ring.w ∧
    (processAudioTx B M fuel s).1.counter = 0 ∧
    (processAudioTx B M fuel s).1.uploading = true ∧
    (processAudioTx B M fuel s).1.fb.isSome = true ∧
    (processAudioTx B M fuel s).2.all Ev.isAudio = true ∧
    (loopAudioPhoto B M fuel now s).2 =
      (processAudioTx B M fuel s).2 ++ (photoSection now (processAudioTx B M fuel s).1).2 := by
  have hgate : ¬(¬s.connected ∨ ¬s.audioSubscribed ∨ ¬s.audioCharPresent) := by
    simp [hconn, hsub, hchar]
  have hpa : processAudioTx B M fuel s = drainGo B M fuel s := by
    unfold processAudioTx
    rw [if_neg hgate]
  obtain ⟨q, evs, heq, hall⟩ := drainGo_chain B M n fuel s hchain hfuel
  rw [hpa, heq]
  refine ⟨rfl, hcnt, hup, hfb, hall, ?_⟩
  simp only [loopAudioPhoto, hconn, hsub]
  rw [if_pos (by simp), hpa, heq]
  simp [hconn, hsub]

/-- Closed instance of C1 at the concrete state c1State. -/
theorem c1_audio_priority_witness :
    (processAudioTx 16 6 1 c1State).1.ring.r = (processAudioTx 16 6 1 c1State).1.ring.w ∧
    (processAudioTx 16 6 1 c1State).1.counter = 0 ∧
    (processAudioTx 16 6 1 c1State).1.uploading = true ∧
    (processAudioTx 16 6 1 c1State).1.fb.isSome = true ∧
    (processAudioTx 16 6 1 c1State).2.all Ev.isAudio = true ∧
    (loopAudioPhoto 16 6 1 0 c1State).2 =
      (processAudioTx 16 6 1 c1State).2 ++ (photoSection 0 (processAudioTx 16 6 1 c1State).1).2 :=
  c1_audio_priority 16 6 1 0 1 c1State rfl rfl rfl rfl rfl rfl (by decide)
    (RingChain.cons 0 5 0 3 (by decide) (by decide) (by decide) (RingChain.nil 5)) (by decide)

theorem specChunksAux_nil (f : Nat) : specChunksAux f [] = [[255, 255]] := by
  simp [specChunksAux]

theorem specChunksAux_cons (f : Nat) (rest : List Nat) (h : rest ≠ []) :
    specChunksAux f rest =
      ([f % 256, f / 256 % 256] ++ rest.take 200) :: specChunksAux (f + 1) (rest.drop 200) := by
  rw [specChunksAux]
  simp [h]

theorem specChunksAux_ne_nil (f : Nat) (rest : List Nat) : specChunksAux f rest ≠ [] := by
  by_cases h : rest = []
  · rw [h, specChunksAux_nil]
    simp
  · rw [specChunksAux_cons f rest h]
    simp

theorem tailSizes_step (n : Nat) (h : 200 ≤ n) : tailSizes n = 200 :: tailSizes (n - 200) := by
  unfold tailSizes
  have hdiv : n / 200 = (n - 200) / 200 + 1 := by omega
  have hmod : n % 200 = (n - 200) % 200 := by omega
  rw [hdiv, hmod, List.replicate_succ]
  simp

theorem tailSizes_small (n : Nat) (h1 : 1 ≤ n) (h2 : n ≤ 200) : tailSizes n = [n] := by
  unfold tailSizes
  rcases Nat.lt_or_ge n 200 with h | h
  · have hdiv : n / 200 = 0 := by omega
    have hmod : n % 200 = n := by omega
    rw [hdiv, hmod, if_neg (by omega)]
    simp
  · have hn : n = 200 := by omega
    subst hn
    rfl

theorem tailSizes_sum (n : Nat) : (tailSizes n).sum = n := by
  unfold tailSizes
  rw [List.sum_append, List.sum_replicate, smul_eq_mul]
  split_ifs with h <;> simp <;> omega

theorem tailSizes_zero : tailSizes 0 = [] := by rfl

theorem specChunksAux_dropLast_sizes :
    ∀ (n f : Nat) (rest : List Nat), rest.length ≤ n →
      (specChunksAux f rest).dropLast.map (fun c => c.length - 2) = tailSizes rest.length := by
  intro n
  induction n with
  | zero =>
    intro f rest hlen
    have h : rest = [] := by
      cases rest with
      | nil => rfl
      | cons a l => simp at hlen
    rw [h, specChunksAux_nil]
    rfl
  | succ n ih =>
    intro f rest hlen
    by_cases h : rest = []
    · rw [h, specChunksAux_nil]
      rfl
    · rw [specChunksAux_cons f rest h,
          List.dropLast_cons_of_ne_nil (specChunksAux_ne_nil (f + 1) (rest.drop 200)),
          List.map_cons, ih (f + 1) (rest.drop 200) (by simp [List.length_drop]; omega)]
      have hlen1 : 1 ≤ rest.length := by
        cases rest with
        | nil => exact absurd rfl h
        | cons a l => simp
      have hchunk : ([f % 256, f / 256 % 256] ++ rest.take 200).length - 2 = min 200 rest.length := by
        simp [List.length_take]
      rw [hchunk]
      have hdl : (rest.drop 200).length = rest.length - 200 := by simp
      rw [hdl]
      rcases Nat.lt_or_ge rest.length 200 with hsz | hsz
      · have hmin : min 200 rest.length = rest.length := by omega
        have hz : rest.length - 200 = 0 := by omega
        rw [hmin, hz, tailSizes_zero, tailSizes_small rest.length hlen1 (by omega)]
      · have hmin : min 200 rest.length = 200 := by omega
        rw [hmin, ← tailSizes_step rest.length hsz]

theorem specChunksAux_count :
    ∀ (n f : Nat) (rest : List Nat), rest.length ≤ n →
      (specChunksAux f rest).count [255, 255] = 1 := by
  intro n
  induction n with
  | zero =>
    intro f rest hlen
    have h : rest = [] := by
      cases rest with
      | nil => rfl
      | cons a l => simp at hlen
    rw [h, specChunksAux_nil]
    rfl
  | succ n ih =>
    intro f rest hlen
    by_cases h : rest = []
    · rw [h, specChunksAux_nil]
      rfl
    · rw [specChunksAux_cons f rest h]
      have hlen1 : 1 ≤ rest.length := by
        cases rest with
        | nil => exact absurd rfl h
        | cons a l => simp
      have hne : ([f % 256, f / 256 % 256] ++ rest.take 200) ≠ [255, 255] := by
        intro heq
        have hcl := congrArg List.length heq
        simp [List.length_take] at hcl
        exact h hcl
      rw [List.count_cons_of_ne (Ne.symm hne)]
      exact ih (f + 1) (rest.drop 200) (by simp [List.length_drop]; omega)

theorem specChunksAux_getLast :
    ∀ (n f : Nat) (rest : List Nat), rest.length ≤ n →
      (specChunksAux f rest).getLast? = some [255, 255] := by
  intro n
  induction n with
  | zero =>
    intro f rest hlen
    have h : rest = [] := by
      cases rest with
      | nil => rfl
      | cons a l => simp at hlen
    rw [h, specChunksAux_nil]
    rfl
  | succ n ih =>
    intro f rest hlen
    by_cases h : rest = []
    · rw [h, specChunksAux_nil]
      rfl
    · rw [specChunksAux_cons f rest h]
      have hlen1 : 1 ≤ rest.length := by
        cases rest with
        | nil => exact absurd rfl h
        | cons a l => simp
      have htail := ih (f + 1) (rest.drop 200) (by simp [List.length_drop]; omega)
      cases haux : specChunksAux (f + 1) (rest.drop 200) with
      | nil => exact absurd haux (specChunksAux_ne_nil (f + 1) (rest.drop 200))
      | cons d ds =>
        rw [List.getLast?_cons_cons]
        rw [haux] at htail
        exact htail

theorem photoSection_not_uploading (now : Nat) (s : ArbSt) (h : s.uploading = false) :
    photoSection now s = ({ s with counter := 0 }, []) := by
  unfold photoSection
  rw [if_neg]
  simp [h]

theorem runPhoto_done (now : Nat) :
    ∀ (fuel : Nat) (s : ArbSt), s.uploading = false →
      (runPhoto fuel now s).2 = [] ∧
      (runPhoto fuel now s).1.uploading = false ∧
      (runPhoto fuel now s).1.fb = s.fb := by
  intro fuel
  induction fuel with
  | zero => intro s h; exact ⟨rfl, h, rfl⟩
  | succ fuel ih =>
    intro s h
    simp only [runPhoto, photoSection_not_uploading now s h]
    obtain ⟨h1, h2, h3⟩ := ih { s with counter := 0 } h
    refine ⟨?_, ?_, ?_⟩ <;> simp [h1, h2, h3]

theorem photoSection_term (now : Nat) (s : ArbSt) (img : List Nat)
    (hup : s.uploading = true) (hfb : s.fb = some img) (hidle : s.ring.r = s.ring.w)
    (hcnt : s.counter < 2) (hrem : img.length ≤ s.sent) :
    photoSection now s =
      ({ s with uploading := false, fb := none, counter := 0 }, [Ev.photoNotify [255, 255]]) := by
  simp only [photoSection]
  split_ifs <;> first
    | (exfalso; simp_all; omega)
    | simp_all

theorem photoSection_chunk (now : Nat) (s : ArbSt) (img : List Nat)
    (hup : s.uploading = true) (hfb : s.fb = some img) (hidle : s.ring.r = s.ring.w)
    (hcnt : s.counter < 2) (hfr : s.frames ≠ 0) (hrem : s.sent < img.length) :
    photoSection now s =
      ({ s with counter := s.counter + 1,
                sent := s.sent + (if 200 < img.length - s.sent then 200 else img.length - s.sent),
                frames := s.frames + 1, lastActivity := now },
       [Ev.photoNotify ([s.frames % 256, s.frames / 256 % 256] ++ (img.drop s.sent).take
          (if 200 < img.length - s.sent then 200 else img.length - s.sent))]) := by
  simp only [photoSection]
  split_ifs <;> first
    | (exfalso; simp_all; omega)
    | simp_all

theorem photoSection_first (now : Nat) (s : ArbSt) (img : List Nat)
    (hup : s.uploading = true) (hfb : s.fb = some img) (hidle : s.ring.r = s.ring.w)
    (hcnt : s.counter < 2) (hfr : s.frames = 0) (hrem : s.sent < img.length) :
    photoSection now s =
      ({ s with counter := s.counter + 1,
                sent := s.sent + (if 199 < img.length - s.sent then 199 else img.length - s.sent),
                frames := s.frames + 1, lastActivity := now },
       [Ev.photoNotify ([0, 0, s.orientation] ++ (img.drop s.sent).take
          (if 199 < img.length - s.sent then 199 else img.length - s.sent))]) := by
  simp only [photoSection]
  split_ifs <;> first
    | (exfalso; simp_all; omega)
    | simp_all

theorem runPhoto_tail (now : Nat) :
    ∀ (fuel : Nat) (s : ArbSt) (img : List Nat),
      s.uploading = true → s.fb = some img → s.ring.r = s.ring.w →
      1 ≤ s.frames → s.sent ≤ img.length → s.counter ≤ 2 →
      2 * (img.length - s.sent) + s.counter + 5 ≤ fuel →
      (runPhoto fuel now s).2 = (specChunksAux s.frames (img.drop s.sent)).map Ev.photoNotify ∧
      (runPhoto fuel now s).1.uploading = false ∧
      (runPhoto fuel now s).1.fb = none := by
  intro fuel
  induction fuel with
  | zero =>
    intro s img _ _ _ _ _ _ hf
    omega
  | succ fuel ih =>
    intro s img hup hfb hidle hfr hsent hcnt hf
    by_cases hc2 : s.counter = 2
    · have hps : photoSection now s = ({ s with counter := 0 }, []) := by
        unfold photoSection
        rw [if_neg (by simp [hc2])]
      simp only [runPhoto, hps]
      obtain ⟨h1, h2, h3⟩ := ih { s with counter := 0 } img hup hfb hidle hfr hsent
        (by show (0 : Nat) ≤ 2; omega)
        (by show 2 * (img.length - s.sent) + 0 + 5 ≤ fuel; omega)
      refine ⟨?_, ?_, ?_⟩ <;> simp [h1, h2, h3]
    · have hcnt2 : s.counter < 2 := by omega
      by_cases hrem : img.length ≤ s.sent
      · have hdrop : img.drop s.sent = [] := List.drop_eq_nil_of_le hrem
        have hps := photoSection_term now s img hup hfb hidle hcnt2 hrem
        simp only [runPhoto, hps]
        obtain ⟨h1, h2, h3⟩ :=
          runPhoto_done now fuel { s with uploading := false, fb := none, counter := 0 } rfl
        rw [hdrop, specChunksAux_nil]
        refine ⟨?_, ?_, ?_⟩ <;> simp [h1, h2, h3]
      · push_neg at hrem
        have hps := photoSection_chunk now s img hup hfb hidle hcnt2 (by omega) hrem
        simp only [runPhoto, hps]
        have hm1 : 1 ≤ (if 200 < img.length - s.sent then 200 else img.length - s.sent) := by
          split_ifs <;> omega
        have hmle : (if 200 < img.length - s.sent then 200 else img.length - s.sent) ≤
            img.length - s.sent := by
          split_ifs <;> omega
        obtain ⟨h1, h2, h3⟩ := ih
          { s with counter := s.counter + 1,
                   sent := s.sent + (if 200 < img.length - s.sent then 200 else img.length - s.sent),
                   frames := s.frames + 1, lastActivity := now } img hup hfb hidle
          (by show 1 ≤ s.frames + 1; omega)
          (by show s.sent + (if 200 < img.length - s.sent then 200 else img.length - s.sent) ≤ img.length
              omega)
          (by show s.counter + 1 ≤ 2; omega)
          (by show 2 * (img.length -
                (s.sent + (if 200 < img.length - s.sent then 200 else img.length - s.sent))) +
                (s.counter + 1) + 5 ≤ fuel
              omega)
        have hrest : img.drop s.sent ≠ [] := by
          intro hnil
          have hcl := congrArg List.length hnil
          simp [List.length_drop] at hcl
          omega
        rw [specChunksAux_cons s.frames (img.drop s.sent) hrest]
        have htake : (img.drop s.sent).take
            (if 200 < img.length - s.sent then 200 else img.length - s.sent) =
            (img.drop s.sent).take 200 := by
          rcases Nat.lt_or_ge 200 (img.length - s.sent) with h200 | h200
          · rw [if_pos h200]
          · rw [if_neg (by omega),
                List.take_of_length_le (by simp only [List.length_drop]; omega),
                List.take_of_length_le (by simp only [List.length_drop]; omega)]
        have hdrop2 : img.drop
            (s.sent + (if 200 < img.length - s.sent then 200 else img.length - s.sent)) =
            (img.drop s.sent).drop 200 := by
          rw [List.drop_drop]
          rcases Nat.lt_or_ge 200 (img.length - s.sent) with h200 | h200
          · rw [if_pos h200]
          · rw [if_neg (by omega), List.drop_eq_nil_of_le (by omega),
                List.drop_eq_nil_of_le (by omega)]
        refine ⟨?_, by simpa using h2, by simpa using h3⟩
        simp only [List.map_cons]
        simp only [h1, htake, hdrop2]
        simp

/-- C4: a photo upload of L ≥ 1 bytes run to completion emits exactly the
spec chunk stream: a first chunk with 3-byte header [0][0][orientation]
and at most 199 payload bytes, then 2-byte-header chunks of at most 200
payload bytes, then exactly one terminator [255, 255] as the last
notification; the data payload sizes are min L 199 followed by 200-byte
pieces and the leftover, summing to L (for L = 450: 199, 200, 51); after
completion the uploading flag is cleared and the frame buffer released. -/
theorem c4_photo_chunking (now fuel : Nat) (s : ArbSt) (img : List Nat)
    (hup : s.uploading = true) (hfb : s.fb = some img) (hL : 1 ≤ img.length)
    (hsent : s.sent = 0) (hfr : s.frames = 0) (hcnt : s.counter = 0)
    (hidle : s.ring.r = s.ring.w) (hfuel : 2 * img.length + 7 ≤ fuel) :
    (runPhoto fuel now s).2 = (specPhotoChunks img s.orientation).map Ev.photoNotify ∧
    payloadSizes ((specPhotoChunks img s.orientation).dropLast) = chunkSizes img.length ∧
    (chunkSizes img.length).sum = img.length ∧
    (specPhotoChunks img s.orientation).count [255, 255] = 1 ∧
    (specPhotoChunks img s.orientation).getLast? = some [255, 255] ∧
    chunkSizes 450 = [199, 200, 51] ∧
    (runPhoto fuel now s).1.uploading = false ∧
    (runPhoto fuel now s).1.fb = none := by
  have hrem : s.sent < img.length := by omega
  have hps := photoSection_first now s img hup hfb hidle (by omega) hfr hrem
  cases fuel with
  | zero => omega
  | succ fuel =>
    simp only [runPhoto, hps]
    obtain ⟨h1, h2, h3⟩ := runPhoto_tail now fuel
      { s with counter := s.counter + 1,
               sent := s.sent + (if 199 < img.length - s.sent then 199 else img.length - s.sent),
               frames := s.frames + 1, lastActivity := now } img hup hfb hidle
      (by show 1 ≤ s.frames + 1; omega)
      (by show s.sent + (if 199 < img.length - s.sent then 199 else img.length - s.sent) ≤ img.length
          split_ifs <;> omega)
      (by show s.counter + 1 ≤ 2; omega)
      (by show 2 * (img.length -
            (s.sent + (if 199 < img.length - s.sent then 199 else img.length - s.sent))) +
            (s.counter + 1) + 5 ≤ fuel
          split_ifs <;> omega)
    have htakeb : (img.drop s.sent).take
        (if 199 < img.length - s.sent then 199 else img.length - s.sent) = img.take 199 := by
      rw [hsent, List.drop_zero]
      simp only [Nat.sub_zero]
      rcases Nat.lt_or_ge 199 img.length with h199 | h199
      · rw [if_pos h199]
      · rw [if_neg (by omega), List.take_length, List.take_of_length_le h199]
    have hdropb : img.drop
        (s.sent + (if 199 < img.length - s.sent then 199 else img.length - s.sent)) =
        img.drop 199 := by
      rw [hsent]
      simp only [Nat.sub_zero, Nat.zero_add]
      rcases Nat.lt_or_ge 199 img.length with h199 | h199
      · rw [if_pos h199]
      · rw [if_neg (by omega), List.drop_eq_nil_of_le (by omega),
            List.drop_eq_nil_of_le (by omega)]
    refine ⟨?_, ?_, ?_, ?_, ?_, by decide, by simpa using h2, by simpa using h3⟩
    · simp only [specPhotoChunks, List.map_cons]
      simp only [h1, htakeb, hdropb]
      simp [hfr, hsent]
    · rw [specPhotoChunks, List.dropLast_cons_of_ne_nil (specChunksAux_ne_nil 1 (img.drop 199))]
      simp only [payloadSizes]
      rw [specChunksAux_dropLast_sizes (img.drop 199).length 1 (img.drop 199) le_rfl]
      simp [chunkSizes, List.length_take, List.length_drop, Nat.min_comm]
    · rw [chunkSizes]
      simp [List.sum_cons, tailSizes_sum]
      omega
    · rw [specPhotoChunks]
      have hne1 : ([0, 0, s.orientation] ++ img.take 199) ≠ [255, 255] := by
        intro heq
        have hcl := congrArg List.length heq
        simp [List.length_take] at hcl
      rw [List.count_cons_of_ne (Ne.symm hne1)]
      exact specChunksAux_count (img.drop 199).length 1 (img.drop 199) le_rfl
    · rw [specPhotoChunks]
      cases haux : specChunksAux 1 (img.drop 199) with
      | nil => exact absurd haux (specChunksAux_ne_nil 1 (img.drop 199))
      | cons d ds =>
        rw [List.getLast?_cons_cons]
        have hgl := specChunksAux_getLast (img.drop 199).length 1 (img.drop 199) le_rfl
        rw [haux] at hgl
        exact hgl

/-- Closed instance of C4 for a 3-byte image. -/
theorem c4_photo_chunking_witness :
    (runPhoto 13 0 c4State).2 = (specPhotoChunks [1, 2, 3] c4State.orientation).map Ev.photoNotify ∧
    payloadSizes ((specPhotoChunks [1, 2, 3] c4State.orientation).dropLast) =
      chunkSizes ([1, 2, 3] : List Nat).length ∧
    (chunkSizes ([1, 2, 3] : List Nat).length).sum = ([1, 2, 3] : List Nat).length ∧
    (specPhotoChunks [1, 2, 3] c4State.orientation).count [255, 255] = 1 ∧
    (specPhotoChunks [1, 2, 3] c4State.orientation).getLast? = some [255, 255] ∧
    chunkSizes 450 = [199, 200, 51] ∧
    (runPhoto 13 0 c4State).1.uploading = false ∧
    (runPhoto 13 0 c4State).1.fb = none :=
  c4_photo_chunking 0 13 c4State [1, 2, 3] rfl rfl (by decide) rfl rfl rfl rfl (by decide)

/-- C5: the 16-bit audio packet sequence number increments by exactly one
per packet actually transmitted, wrapping from 65535 to 0 with no gap or
repeat elsewhere, and it is unchanged (and nothing is sent) when the link
is disconnected, audio is unsubscribed, or the characteristic is absent. -/
theorem c5_sequence_number (s : ArbSt) (data : List Nat) :
    (s.connected = true → s.audioSubscribed = true → s.audioCharPresent = true →
      broadcastAudioPacket s data =
        ({ s with seq := (s.seq + 1) % 65536 },
         some ([s.seq % 256, s.seq / 256 % 256, 0] ++ data)) ∧
      (s.seq < 65535 → (broadcastAudioPacket s data).1.seq = s.seq + 1) ∧
      (s.seq = 65535 → (broadcastAudioPacket s data).1.seq = 0)) ∧
    ((s.connected = false ∨ s.audioSubscribed = false ∨ s.audioCharPresent = false) →
      broadcastAudioPacket s data = (s, none)) := by
  constructor
  · intro hc hs hch
    have heq : broadcastAudioPacket s data =
        ({ s with seq := (s.seq + 1) % 65536 },
         some ([s.seq % 256, s.seq / 256 % 256, 0] ++ data)) := by
      unfold broadcastAudioPacket
      rw [if_neg (by simp [hc, hs, hch])]
    refine ⟨heq, ?_, ?_⟩
    · intro hlt
      rw [heq]
      exact Nat.mod_eq_of_lt (by omega)
    · intro h65
      rw [heq]
      show (s.seq + 1) % 65536 = 0
      rw [h65]
  · intro h
    unfold broadcastAudioPacket
    rw [if_pos]
    rcases h with h | h | h <;> simp [h]

/-- Closed instance of C5: at sequence number 65535 a transmitted packet
wraps the counter to 0. -/
theorem c5_sequence_number_witness : (broadcastAudioPacket c5State [9]).1.seq = 0 :=
  ((c5_sequence_number c5State [9]).1 rfl rfl rfl).2.2 rfl

/-- C6: enableLightSleep never sleeps when light sleep is disabled, the
link is down, an upload is active, the idle time is under 5 s, or the
headroom to the next capture is at most 10 s; otherwise it sleeps for
exactly min (headroom - 5000) 15000 ms - waking at least 5 s before the
next capture is due - and refreshes the activity timestamp on wake. -/
theorem c6_light_sleep (now wake : Nat) (s : SleepSt) :
    ((¬s.lightSleepEnabled ∨ ¬s.connected ∨ s.photoDataUploading) →
      enableLightSleep now wake s = (s, none)) ∧
    (now - s.lastActivity < 5000 → enableLightSleep now wake s = (s, none)) ∧
    (photoHeadroom now s ≤ 10000 → enableLightSleep now wake s = (s, none)) ∧
    (s.lightSleepEnabled = true → s.connected = true → s.photoDataUploading = false →
      5000 ≤ now - s.lastActivity → 10000 < photoHeadroom now s →
      enableLightSleep now wake s =
        ({ s with lastActivity := wake }, some (min (photoHeadroom now s - 5000) 15000)) ∧
      min (photoHeadroom now s - 5000) 15000 + 5000 ≤ photoHeadroom now s) := by
  refine ⟨?_, ?_, ?_, ?_⟩
  · intro h
    unfold enableLightSleep
    rw [if_pos h]
  · intro h
    simp only [enableLightSleep]
    split_ifs with ha hb hc
    all_goals first | rfl | exact absurd h hb
  · intro h
    simp only [enableLightSleep]
    split_ifs with ha hb hc
    all_goals first | rfl | exact absurd hc (by omega)
  · intro h1 h2 h3 h4 h5
    have hmin : (if 15000 < photoHeadroom now s - 5000 then 15000
        else photoHeadroom now s - 5000) = min (photoHeadroom now s - 5000) 15000 := by
      rw [Nat.min_def]
      split_ifs <;> omega
    constructor
    · simp only [enableLightSleep]
      rw [if_neg (by simp [h1, h2, h3]), if_neg (by omega), if_pos h5, hmin]
    · omega

/-- Closed instance of C6: with 15 s headroom the device sleeps exactly
10 s and the activity timestamp is set to the wake time. -/
theorem c6_light_sleep_witness :
    enableLightSleep 15000 99999 c6State =
      ({ c6State with lastActivity := 99999 },
       some (min (photoHeadroom 15000 c6State - 5000) 15000)) ∧
    min (photoHeadroom 15000 c6State - 5000) 15000 + 5000 ≤ photoHeadroom 15000 c6State :=
  (c6_light_sleep 15000 99999 c6State).2.2.2 rfl rfl rfl (by decide) (by decide)

/-- C7: once the long press has fired for the current press (the button
is still down and longPressTriggered is set), further held iterations
change nothing, and the eventual release is never treated as a short
press: the activity timestamp and the power state are untouched. -/
theorem c7_long_press_exclusive (now : Nat) (s : BtnSt)
    (hdown : s.buttonDown = true) (hfired : s.longPressTriggered = true) :
    handleButton now true s = s ∧
    (handleButton now false s).lastActivity = s.lastActivity ∧
    (handleButton now false s).power = s.power := by
  refine ⟨?_, ?_, ?_⟩
  · unfold handleButton
    rw [if_neg (by simp [hdown]), if_neg (by simp [hfired]), if_neg (by simp)]
  · simp only [handleButton]
    rw [if_neg (by simp), if_neg (by simp), if_pos (by simp [hdown])]
    split_ifs with hdb hsp
    all_goals first | rfl | simp_all
  · simp only [handleButton]
    rw [if_neg (by simp), if_neg (by simp), if_pos (by simp [hdown])]
    split_ifs with hdb hsp
    all_goals first | rfl | simp_all

/-- Closed instance of C7 at the concrete held-with-long-press state. -/
theorem c7_long_press_exclusive_witness :
    handleButton 5000 true c7State = c7State ∧
    (handleButton 5000 false c7State).lastActivity = c7State.lastActivity ∧
    (handleButton 5000 false c7State).power = c7State.power :=
  c7_long_press_exclusive 5000 c7State rfl rfl

/-- C8: power-save entry and exit are idempotent on the power state, and
the per-iteration power-mode check of the scheduler loop is idempotent
when its inputs (connection, upload, clock) do not change - so the power
mode and CPU frequency change at most once per threshold crossing. -/
theorem c8_power_save_idempotent (thresh now : Nat) (connected uploading : Bool) (p : PowerSt)
    (s : PmSt) :
    enterPowerSave (enterPowerSave p) = enterPowerSave p ∧
    exitPowerSave (exitPowerSave p) = exitPowerSave p ∧
    powerModeCheck thresh now connected uploading (powerModeCheck thresh now connected uploading s) =
      powerModeCheck thresh now connected uploading s := by
  have henter : ∀ q : PowerSt, enterPowerSave (enterPowerSave q) = enterPowerSave q := by
    intro q
    unfold enterPowerSave
    split_ifs <;> simp_all
  have hexit : ∀ q : PowerSt, exitPowerSave (exitPowerSave q) = exitPowerSave q := by
    intro q
    unfold exitPowerSave
    split_ifs <;> simp_all
  have hexitpsm : ∀ q : PowerSt,
      (if q.powerSaveMode then exitPowerSave q else q).powerSaveMode = false := by
    intro q
    unfold exitPowerSave
    split_ifs <;> simp_all
  refine ⟨henter p, hexit p, ?_⟩
  cases connected <;> cases uploading <;>
    simp [powerModeCheck, hexitpsm] <;>
    split_ifs <;>
    first
      | rfl
      | simp [henter]
      | (intro hcontra; exact absurd hcontra (by assumption))

/-- C9 counterexample: the control value is read into an int8_t, so the
received byte 200 - which lies in the claimed range 5 ≤ v ≤ 300 -
becomes -56 and matches no branch: capturing is not enabled and the
state is unchanged, contradicting the claim as stated. -/
theorem c9_photo_control_counterexample :
    (5 ≤ (200 : Nat) ∧ (200 : Nat) ≤ 300) ∧
    toInt8 200 = -56 ∧
    handlePhotoControl 100000 (toInt8 200)
        { isCapturingPhotos := false, captureInterval := 0, lastCaptureTime := 0 } =
      { isCapturingPhotos := false, captureInterval := 0, lastCaptureTime := 0 } := by
  refine ⟨by decide, by decide, ?_⟩
  decide

/-- C9 (amended): for every control byte b with 5 ≤ b ≤ 127 (the part of
the claimed 5..300 range an int8_t can represent), the interval-capture
branch fires: the capture interval is set to the fixed 30000 ms
regardless of b, capturing is enabled, and lastCaptureTime is set to
now - 30000 so that the interval check is already due; the received
value itself never enters the resulting state. -/
theorem c9_interval_fixed (now b : Nat) (s : PhotoCtl)
    (hb1 : 5 ≤ b) (hb2 : b ≤ 127) (hnow : PHOTO_CAPTURE_INTERVAL_MS ≤ now) :
    handlePhotoControl now (toInt8 b) s =
      { isCapturingPhotos := true, captureInterval := PHOTO_CAPTURE_INTERVAL_MS,
        lastCaptureTime := now - PHOTO_CAPTURE_INTERVAL_MS } ∧
    captureDue now (handlePhotoControl now (toInt8 b) s) ∧
    now - (now - PHOTO_CAPTURE_INTERVAL_MS) = PHOTO_CAPTURE_INTERVAL_MS := by
  have hv : toInt8 b = (b : Int) := by
    unfold toInt8
    rw [Nat.mod_eq_of_lt (by omega), if_pos (by omega)]
  have heq : handlePhotoControl now (toInt8 b) s =
      { isCapturingPhotos := true, captureInterval := PHOTO_CAPTURE_INTERVAL_MS,
        lastCaptureTime := now - PHOTO_CAPTURE_INTERVAL_MS } := by
    rw [hv]
    unfold handlePhotoControl
    rw [if_neg (by omega), if_neg (by omega), if_pos (by constructor <;> omega)]
  refine ⟨heq, ?_, ?_⟩
  · rw [heq]
    right
    show PHOTO_CAPTURE_INTERVAL_MS ≤ now - (now - PHOTO_CAPTURE_INTERVAL_MS)
    unfold PHOTO_CAPTURE_INTERVAL_MS at *
    omega
  · unfold PHOTO_CAPTURE_INTERVAL_MS at *
    omega

/-- Closed instance of the amended C9 at byte 10 and now = 50000. -/
theorem c9_interval_fixed_witness :
    handlePhotoControl 50000 (toInt8 10)
        { isCapturingPhotos := false, captureInterval := 0, lastCaptureTime := 0 } =
      { isCapturingPhotos := true, captureInterval := PHOTO_CAPTURE_INTERVAL_MS,
        lastCaptureTime := 50000 - PHOTO_CAPTURE_INTERVAL_MS } ∧
    captureDue 50000 (handlePhotoControl 50000 (toInt8 10)
        { isCapturingPhotos := false, captureInterval := 0, lastCaptureTime := 0 }) ∧
    50000 - (50000 - PHOTO_CAPTURE_INTERVAL_MS) = PHOTO_CAPTURE_INTERVAL_MS :=
  c9_interval_fixed 50000 10
    { isCapturingPhotos := false, captureInterval := 0, lastCaptureTime := 0 }
    (by decide) (by decide) (by decide)

/-- C10: for every microphone sample batch processed with a gain other
than 1 (any plausible config gain 1 ≤ g ≤ 65536), each sample handed to
the audio callback equals the input times the gain, computed without
32-bit wraparound and saturated into the int16 range. -/
theorem c10_mic_gain_saturation (g : Int) (xs : List Int)
    (hg1 : 1 ≤ g) (hg2 : g ≤ 65536) (hgne : g ≠ 1)
    (hxs : ∀ x ∈ xs, -32768 ≤ x ∧ x ≤ 32767) :
    mic_process g xs = xs.map (fun x => max (-32768) (min 32767 (x * g))) ∧
    xs.map (fun x => wrap32 (x * g)) = xs.map (fun x => x * g) := by
  have key : ∀ x : Int, -32768 ≤ x → x ≤ 32767 → wrap32 (x * g) = x * g := by
    intro x h1 h2
    unfold wrap32
    have hlo : -(2 ^ 31) ≤ x * g := by
      nlinarith [mul_nonneg (by omega : (0 : Int) ≤ x + 32768) (by omega : (0 : Int) ≤ g)]
    have hhi : x * g < 2 ^ 31 := by
      nlinarith [mul_nonneg (by omega : (0 : Int) ≤ 32767 - x) (by omega : (0 : Int) ≤ g)]
    have hmod : (x * g + 2 ^ 31) % 2 ^ 32 = x * g + 2 ^ 31 :=
      Int.emod_eq_of_lt (by omega) (by omega)
    omega
  constructor
  · unfold mic_process
    rw [if_pos hgne]
    apply List.map_congr_left
    intro x hx
    obtain ⟨h1, h2⟩ := hxs x hx
    simp only [micScale]
    rw [key x h1 h2, max_def, min_def]
    split_ifs <;> omega
  · apply List.map_congr_left
    intro x hx
    obtain ⟨h1, h2⟩ := hxs x hx
    exact key x h1 h2

/-- Closed instance of C10 with gain 4: a loud sample saturates high, a
negative one saturates low, a quiet one is scaled exactly. -/
theorem c10_mic_gain_saturation_witness :
    mic_process 4 [30000, -30000, 5] =
      ([30000, -30000, 5] : List Int).map (fun x => max (-32768) (min 32767 (x * 4))) ∧
    ([30000, -30000, 5] : List Int).map (fun x => wrap32 (x * 4)) =
      ([30000, -30000, 5] : List Int).map (fun x => x * 4) :=
  c10_mic_gain_saturation 4 [30000, -30000, 5] (by decide) (by decide) (by decide) (by decide)

theorem bleSubscribed_connected :
    ∀ (evs : List BleEv) (c sub : Bool), (sub = true → c = true) →
      ((evs.foldl bleStep (c, sub)).2 = true → (evs.foldl bleStep (c, sub)).1 = true) := by
  intro evs
  induction evs with
  | nil => intro c sub h; exact h
  | cons e rest ih =>
    intro c sub h
    cases e with
    | connect => exact ih true false (by simp)
    | disconnect => exact ih false false (by simp)
    | subscribe b =>
      refine ih c (if c = true then b else sub) ?_
      intro hs
      by_cases hc : c = true
      · exact hc
      · rw [if_neg hc] at hs
        exact h hs
